import Mathlib

set_option maxRecDepth 8000

/-!
Verification of the heatmap statistics engine.

Shallow embedding of `backend/services/heatmap_service.py` (class `HeatmapService`)
together with proofs about its monthly aggregation, return computation and
cross-sectional ranking logic.

Modelling conventions:

* The loaded pandas `DataFrame` becomes a `Table`: a list of rows, each carrying a
  date and a function from column name to `Option ℚ` (`none` models a `NaN` cell),
  plus the list of column names (including the `"DATE"` column, which the service
  skips explicitly when iterating over columns).
* pandas/numpy float arithmetic on series is modelled by the type `PF`
  (`nan`, `pinf`, `ninf` or a finite rational): dividing a nonzero finite value by
  zero yields a signed infinity and `0/0` yields `nan`, exactly as numpy does.
  Comparisons with `nan` are `false`, as in numpy.
* Python's `round(x, d)` (round-half-to-even at `d` decimal places) becomes
  `pyRound d`.
* Raising `ValueError` (the spec's `UnknownIndexError` / `InvalidPeriodError`)
  becomes an `Except String` result carrying the error name.
* The nested `year -> month -> value` output dictionaries are flattened to
  association lists keyed by `(year, month)`; the year/month string keys of the
  Python dict are in bijection with these pairs, so nothing is lost.
-/

namespace Heatmap

instance exceptDecEq {ε α : Type} [DecidableEq ε] [DecidableEq α] :
    DecidableEq (Except ε α) := fun a b =>
  match a, b with
  | .error e, .error f =>
    if h : e = f then isTrue (by rw [h])
    else isFalse (by intro hh; cases hh; exact h rfl)
  | .error _, .ok _ => isFalse (by intro hh; cases hh)
  | .ok _, .error _ => isFalse (by intro hh; cases hh)
  | .ok x, .ok y =>
    if h : x = y then isTrue (by rw [h])
    else isFalse (by intro hh; cases hh; exact h rfl)

/-- A calendar date as the service uses it: only `dt.year` and `dt.month` are ever
read (`groupby(['Year', 'Month'])` and the trailing-window filters). -/
structure Date where
  year : ℤ
  month : ℤ
deriving DecidableEq, Repr

/-- A `(year, month)` bucket key. -/
abbrev YM := ℤ × ℤ

/-- One row of the data frame: its date plus the value of every index column
(`none` models a missing/NaN cell). -/
abbrev Row := Date × (String → Option ℚ)

/-- The loaded data frame: rows in file order plus the list of column names
(the `"DATE"` column included, as in `self.data.columns`). -/
structure Table where
  rows : List Row
  cols : List String

/-- A pandas float value: NaN, a signed infinity, or a finite rational. -/
inductive PF where
  | nan : PF
  | pinf : PF
  | ninf : PF
  | fin : ℚ → PF
deriving DecidableEq, Repr

/-- `pd.isna` on a float: true exactly for NaN (infinities are not NA). -/
def PF.isNan : PF → Bool
  | .nan => true
  | _ => false

/-- Division of two finite floats with numpy semantics:
`x / 0` is a signed infinity for `x ≠ 0` and NaN for `x = 0`. -/
def pfDiv (a b : ℚ) : PF :=
  if b = 0 then (if a = 0 then .nan else if 0 < a then .pinf else .ninf)
  else .fin (a / b)

/-- Subtracting the constant `1` from a float (`nan` and infinities absorb). -/
def PF.sub1 : PF → PF
  | .fin q => .fin (q - 1)
  | v => v

/-- numpy `<` on floats: any comparison with NaN is false, `-inf` is below and
`+inf` above every non-NaN value, finite values compare as rationals. -/
def pfLt : PF → PF → Bool
  | .nan, _ => false
  | _, .nan => false
  | .ninf, .ninf => false
  | .ninf, _ => true
  | _, .ninf => false
  | .fin _, .pinf => true
  | .pinf, _ => false
  | .fin a, .fin b => decide (a < b)

/-- Addition of floats (for the `mean` used by `calculate_avg_monthly_profits_3y`). -/
def pfAdd : PF → PF → PF
  | .nan, _ => .nan
  | _, .nan => .nan
  | .pinf, .ninf => .nan
  | .ninf, .pinf => .nan
  | .pinf, _ => .pinf
  | _, .pinf => .pinf
  | .ninf, _ => .ninf
  | _, .ninf => .ninf
  | .fin a, .fin b => .fin (a + b)

/-- Dividing a float by a positive count (for means). -/
def pfDivNat (v : PF) (n : ℕ) : PF :=
  match v with
  | .fin q => .fin (q / n)
  | v => v

/-- Round-half-to-even of a rational to an integer, as Python's `round` does. -/
def roundHalfEven (x : ℚ) : ℤ :=
  if x - ⌊x⌋ < 1/2 then ⌊x⌋
  else if 1/2 < x - ⌊x⌋ then ⌊x⌋ + 1
  else if 2 ∣ ⌊x⌋ then ⌊x⌋ else ⌊x⌋ + 1

/-- Python's `round(x, d)`: round-half-to-even at `d` decimal places. -/
def pyRound (d : ℕ) (x : ℚ) : ℚ :=
  (roundHalfEven (x * 10 ^ d) : ℚ) / 10 ^ d

/-- The `(Year, Month)` key extracted from a row (`df['DATE'].dt.year/.month`). -/
def rowYM (r : Row) : YM := (r.1.year, r.1.month)

/-- Lexicographic order on `(year, month)` keys — the order in which
`groupby(['Year', 'Month'])` (with its default `sort=True`) emits groups. -/
def ymLe (a b : YM) : Prop := a.1 < b.1 ∨ (a.1 = b.1 ∧ a.2 ≤ b.2)

/-- Strict lexicographic order on `(year, month)` keys. -/
def ymLt (a b : YM) : Prop := a.1 < b.1 ∨ (a.1 = b.1 ∧ a.2 < b.2)

instance : DecidableRel ymLe := fun a b => by unfold ymLe; infer_instance

instance : DecidableRel ymLt := fun a b => by unfold ymLt; infer_instance

instance : IsTotal YM ymLe :=
  ⟨fun a b => by
    unfold ymLe
    rcases lt_trichotomy a.1 b.1 with h | h | h
    · exact Or.inl (Or.inl h)
    · rcases le_total a.2 b.2 with h2 | h2
      · exact Or.inl (Or.inr ⟨h, h2⟩)
      · exact Or.inr (Or.inr ⟨h.symm, h2⟩)
    · exact Or.inr (Or.inl h)⟩

instance : IsTrans YM ymLe :=
  ⟨fun a b c hab hbc => by
    unfold ymLe at *
    rcases hab with h | ⟨he, hm⟩
    · rcases hbc with h' | ⟨he', _⟩
      · exact Or.inl (h.trans h')
      · exact Or.inl (he' ▸ h)
    · rcases hbc with h' | ⟨he', hm'⟩
      · exact Or.inl (he ▸ h')
      · exact Or.inr ⟨he.trans he', hm.trans hm'⟩⟩

/-- The distinct `(year, month)` keys of the table, in the (lexicographically
ascending) order produced by the groupby. -/
def monthKeys (t : Table) : List YM :=
  List.insertionSort ymLe (t.rows.map rowYM).dedup

/-- The non-absent daily values of column `name` falling in bucket `k`. -/
def bucketVals (t : Table) (name : String) (k : YM) : List ℚ :=
  t.rows.filterMap (fun r => if rowYM r = k then r.2 name else none)

/-- pandas group mean: NaN values are skipped; a group whose values are all NaN
has mean NaN. -/
def bucketMean (vs : List ℚ) : Option ℚ :=
  if vs = [] then none else some (vs.sum / vs.length)

/-- `HeatmapService.calculate_monthly_average`: one arithmetic-mean value per
`(year, month)` bucket, buckets in ascending order. -/
def calculate_monthly_average (t : Table) (name : String) : List (YM × Option ℚ) :=
  (monthKeys t).map (fun k => (k, bucketMean (bucketVals t name k)))

/-- One cell of `monthly_avg / monthly_avg.shift(1) - 1`: NaN when either operand
is NaN, numpy division semantics when the previous value is zero. -/
def momDiv (cur prev : Option ℚ) : PF :=
  match cur, prev with
  | some c, some p =>
      if p = 0 then (if c = 0 then .nan else if 0 < c then .pinf else .ninf)
      else .fin (c / p - 1)
  | _, _ => .nan

/-- Helper for `calculate_mom_returns`: walks the series with the previous cell. -/
def momAux : Option ℚ → List (YM × Option ℚ) → List (YM × PF)
  | _, [] => []
  | prev, kv :: rest => (kv.1, momDiv kv.2 prev) :: momAux kv.2 rest

/-- `HeatmapService.calculate_mom_returns`:
`(monthly_avg / monthly_avg.shift(1)) - 1` elementwise; the shifted-in cell
before the first bucket is NaN. -/
def calculate_mom_returns (m : List (YM × Option ℚ)) : List (YM × PF) :=
  momAux none m

/-- `HeatmapService.generate_heatmap_matrix`: validates the index, then rounds
each month-over-month return cell to 4 decimals; NaN cells become `none`
(`round(float('inf'), 4)` is `inf`, so infinities survive as values). -/
def generate_heatmap_matrix (t : Table) (name : String) :
    Except String (List (YM × Option PF)) :=
  if name ∈ t.cols then
    .ok ((calculate_mom_returns (calculate_monthly_average t name)).map (fun kv =>
      (kv.1,
        match kv.2 with
        | .nan => none
        | .fin q => some (.fin (pyRound 4 q))
        | v => some v)))
  else .error "UnknownIndexError"

/-- `HeatmapService.generate_monthly_price_matrix`: monthly averages rounded to
2 decimals, NaN cells becoming `none`. -/
def generate_monthly_price_matrix (t : Table) (name : String) :
    Except String (List (YM × Option ℚ)) :=
  if name ∈ t.cols then
    .ok ((calculate_monthly_average t name).map (fun kv =>
      (kv.1, kv.2.map (pyRound 2))))
  else .error "UnknownIndexError"

/-- pandas `Series.mean()` with its default `skipna=True`: NaN entries are
dropped, an all-NaN (or empty) series has mean NaN. -/
def pfMean (l : List PF) : PF :=
  let vs := l.filter (fun v => !v.isNan)
  if vs = [] then .nan
  else pfDivNat (vs.foldl pfAdd (.fin 0)) vs.length

/-- `HeatmapService.calculate_avg_monthly_profits_3y`: mean of the
month-over-month returns whose bucket year is within 3 years of the latest
bucket, rounded to 6 decimals; `none` when no bucket or no eligible value
exists or the mean is NaN. -/
def calculate_avg_monthly_profits_3y (t : Table) (name : String) :
    Except String (Option PF) :=
  if name ∈ t.cols then
    .ok (
      let mom := calculate_mom_returns (calculate_monthly_average t name)
      match mom.getLast? with
      | none => none
      | some lastkv =>
        let recent := mom.filter (fun kv => decide (lastkv.1.1 - 3 < kv.1.1))
        if recent = [] then none
        else
          match pfMean (recent.map (fun kv => kv.2)) with
          | .nan => none
          | .fin q => some (.fin (pyRound 6 q))
          | v => some v)
  else .error "UnknownIndexError"

/-- `df['Year'].max()` over the whole table (`none` for an empty table). -/
def tableLatestYear (t : Table) : Option ℤ :=
  match t.rows with
  | [] => none
  | r :: rs => some (rs.foldl (fun m x => max m x.1.year) r.1.year)

/-- The trailing 4-year window `df[df['Year'] > latest_year - 4]`. -/
def window4y (t : Table) : List Row :=
  match tableLatestYear t with
  | none => []
  | some latest => t.rows.filter (fun r => decide (latest - 4 < r.1.year))

/-- `col_df_4y[col].dropna()`: the non-absent values of a column over a window,
in row order. -/
def colVals (w : List Row) (name : String) : List ℚ :=
  w.filterMap (fun r => r.2 name)

/-- `(values.iloc[-1] / values.iloc[0]) - 1` when at least two non-absent
values exist, `none` otherwise (the `len(values) < 2` guard). The division
follows numpy scalar semantics, so a zero first value yields an infinity
or NaN rather than an error. -/
def cumReturn (vs : List ℚ) : Option PF :=
  match vs with
  | [] => none
  | [_] => none
  | a :: b :: rest => some ((pfDiv (List.getLastD rest b) a).sub1)

/-- The cumulative 4-year returns of every non-`DATE` column that has at least
two non-absent observations in the window — the `all_returns` list of
`calculate_rank_percentile_4y`, in column order (the target index included). -/
def allReturns4y (t : Table) : List PF :=
  t.cols.filterMap (fun col =>
    if col = "DATE" then none else cumReturn (colVals (window4y t) col))

/-- The cumulative 4-year returns of the comparable indices OTHER than `name`:
this is the comparison set the specification describes (the target excluded),
used to state the corrected percentile formula. -/
def otherReturns4y (t : Table) (name : String) : List PF :=
  (t.cols.filter (fun c => c != name)).filterMap (fun col =>
    if col = "DATE" then none else cumReturn (colVals (window4y t) col))

/-- `HeatmapService.calculate_rank_percentile_4y`. -/
def calculate_rank_percentile_4y (t : Table) (name : String) :
    Except String (Option ℚ) :=
  if name ∈ t.cols then
    .ok (
      if (window4y t).isEmpty then none
      else
        match cumReturn (colVals (window4y t) name) with
        | none => none
        | some target =>
          let allRet := allReturns4y t
          if allRet = [] then none
          else some (pyRound 2
            ((((allRet.filter (fun r => pfLt r target)).length : ℚ) /
              (allRet.length : ℚ)) * 100)))
  else .error "UnknownIndexError"

/-- `HeatmapService.calculate_inverse_rank_percentile`:
`round(100 - rank_percentile, 2)`, propagating `none` and the index-validation
error of `calculate_rank_percentile_4y`. -/
def calculate_inverse_rank_percentile (t : Table) (name : String) :
    Except String (Option ℚ) :=
  match calculate_rank_percentile_4y t name with
  | .error e => .error e
  | .ok none => .ok none
  | .ok (some v) => .ok (some (pyRound 2 (100 - v)))

/-- Lookup of bucket `k` in a return series (`if idx in col_returns.index`). -/
def seriesLookup (s : List (YM × PF)) (k : YM) : Option PF :=
  (s.find? (fun kv => kv.1 = k)).map (fun kv => kv.2)

/-- The `same_month_returns` list of `calculate_monthly_rank_position`: the
non-NaN month-over-month returns of every other index (the target and the
`DATE` column excluded) at bucket `k`, in column order. -/
def sameMonthPeers (t : Table) (name : String) (k : YM) : List PF :=
  t.cols.filterMap (fun col =>
    if col = "DATE" ∨ col = name then none
    else
      match seriesLookup (calculate_mom_returns (calculate_monthly_average t col)) k with
      | none => none
      | some v => if v.isNan then none else some v)

/-- `HeatmapService.calculate_monthly_rank_position`: for each bucket of the
target's month-over-month series, `1 + (number of other indices with a strictly
greater return)`; `none` for a NaN target value or an empty peer set. -/
def calculate_monthly_rank_position (t : Table) (name : String) :
    Except String (List (YM × Option ℤ)) :=
  if name ∈ t.cols then
    .ok ((calculate_mom_returns (calculate_monthly_average t name)).map (fun kv =>
      if kv.2.isNan then (kv.1, none)
      else
        let peers := sameMonthPeers t name kv.1
        if peers = [] then (kv.1, none)
        else (kv.1, some (((peers.filter (fun r => pfLt kv.2 r)).length : ℤ) + 1))))
  else .error "UnknownIndexError"

/-- The `period_map` dictionary of `calculate_forward_returns`. -/
def period_map (p : String) : Option ℕ :=
  if p = "1M" then some 1
  else if p = "3M" then some 3
  else if p = "6M" then some 6
  else if p = "1Y" then some 12
  else if p = "2Y" then some 24
  else if p = "3Y" then some 36
  else if p = "4Y" then some 48
  else none

/-- One cell of the forward-return matrix: bucket `i` with current value `cur`
looks `hm` buckets ahead in the monthly list; `none` when the future bucket
does not exist, either value is NaN, or the current value is zero. -/
def forwardCell (m : List (YM × Option ℚ)) (hm i : ℕ) (cur : Option ℚ) : Option ℚ :=
  match m[i + hm]? with
  | none => none
  | some fkv =>
    match cur, fkv.2 with
    | some c, some f => if c = 0 then none else some (pyRound 4 (f / c - 1))
    | _, _ => none

/-- `HeatmapService.calculate_forward_returns`: validates the index, then the
horizon token, then produces one cell per bucket of the monthly series. -/
def calculate_forward_returns (t : Table) (name : String) (p : String) :
    Except String (List (YM × Option ℚ)) :=
  if name ∈ t.cols then
    match period_map p with
    | none => .error "InvalidPeriodError"
    | some hm =>
      let m := calculate_monthly_average t name
      .ok (m.enum.map (fun ik => (ik.2.1, forwardCell m hm ik.1 ik.2.2)))
  else .error "UnknownIndexError"

/-! ### Concrete inputs used by counterexamples and witnesses -/

/-- A monthly series whose second bucket is zero and whose last bucket is
absent: `[1, 0, 2, NaN]` over four consecutive months. -/
def serZeroPrev : List (YM × Option ℚ) :=
  [((2024, 1), some 1), ((2024, 2), some 0), ((2024, 3), some 2), ((2024, 4), none)]

/-- A monthly series of all-identical zero values. -/
def serZeros : List (YM × Option ℚ) := [((2024, 1), some 0), ((2024, 2), some 0)]

/-- A monthly series of all-identical nonzero values. -/
def serConst : List (YM × Option ℚ) := [((2024, 1), some 5), ((2024, 2), some 5)]

/-- A two-index table: one daily observation in each of two months, index `A`
going `1 → 3` and index `B` going `1 → 2`. -/
def tabTwo : Table :=
  ⟨[(⟨2024, 1⟩, fun _ => some 1),
    (⟨2024, 2⟩, fun c => if c = "A" then some 3 else some 2)],
   ["DATE", "A", "B"]⟩

/-- A one-index table whose monthly averages are `3` then `4`. -/
def tabFwd : Table :=
  ⟨[(⟨2024, 1⟩, fun _ => some 3), (⟨2024, 2⟩, fun _ => some 4)],
   ["DATE", "A"]⟩

/-- The recognized forward-horizon tokens (the keys of `period_map`). -/
def validTokens : List String := ["1M", "3M", "6M", "1Y", "2Y", "3Y", "4Y"]

/-- Peer column names for the large table below. -/
def peerName (i : ℕ) : String := "c" ++ toString i

/-- A table with index `A` (going `1 → 3`, cumulative return `2`) and 20000
peer indices (each going `1 → 2`, cumulative return `1`): `A` outperforms all
20000 peers, so its unrounded percentile is `100 · 20000/20001 ≈ 99.995000`,
which rounds at 2 decimals to exactly `100`. -/
def tabBig : Table :=
  ⟨[(⟨2024, 1⟩, fun _ => some 1),
    (⟨2024, 2⟩, fun c => if c = "A" then some 3 else some 2)],
   "DATE" :: "A" :: (List.range 20000).map peerName⟩

end Heatmap

/-! ## Theorems -/

namespace Heatmap

theorem momDiv_none_prev (c : Option ℚ) : momDiv c none = PF.nan := by
  cases c <;> rfl

theorem momAux_map_fst (p : Option ℚ) (l : List (YM × Option ℚ)) :
    (momAux p l).map Prod.fst = l.map Prod.fst := by
  induction l generalizing p with
  | nil => rfl
  | cons x xs ih => simp only [momAux, List.map_cons, ih]

theorem momAux_getElem_zero (p : Option ℚ) (l : List (YM × Option ℚ))
    (kv : YM × Option ℚ) (h : l[0]? = some kv) :
    (momAux p l)[0]? = some (kv.1, momDiv kv.2 p) := by
  cases l with
  | nil => simp at h
  | cons x xs =>
    simp only [List.getElem?_cons_zero, Option.some.injEq] at h
    subst h
    simp [momAux]

theorem momAux_getElem_succ (l : List (YM × Option ℚ)) (p : Option ℚ) (i : ℕ)
    (prev cur : YM × Option ℚ) (hp : l[i]? = some prev) (hc : l[i + 1]? = some cur) :
    (momAux p l)[i + 1]? = some (cur.1, momDiv cur.2 prev.2) := by
  induction l generalizing p i with
  | nil => simp at hp
  | cons x xs ih =>
    simp only [momAux, List.getElem?_cons_succ] at hc ⊢
    cases i with
    | zero =>
      simp only [List.getElem?_cons_zero, Option.some.injEq] at hp
      rw [← hp]
      exact momAux_getElem_zero x.2 xs cur hc
    | succ j =>
      simp only [List.getElem?_cons_succ] at hp
      exact ih x.2 j hp hc

/-- C2, amended: for every monthly series, the month-over-month series has the
same bucket keys; the first bucket is absence; and the value at each bucket
after the first is computed from the current and previous monthly values as
`(current / previous) − 1` with pandas semantics: absence when either value is
absent or when both are zero, but a signed infinity — not absence — when the
previous value is zero and the current value is nonzero. No error is raised,
and a bucket is unaffected by an absent value at its successor. -/
theorem mom_returns_cells (m : List (YM × Option ℚ)) :
    (calculate_mom_returns m).map Prod.fst = m.map Prod.fst
    ∧ (∀ kv, m[0]? = some kv → (calculate_mom_returns m)[0]? = some (kv.1, PF.nan))
    ∧ (∀ i prev cur, m[i]? = some prev → m[i + 1]? = some cur →
        (calculate_mom_returns m)[i + 1]? = some (cur.1,
          match cur.2, prev.2 with
          | some c, some p =>
              if p = 0 then (if c = 0 then PF.nan else if 0 < c then PF.pinf else PF.ninf)
              else PF.fin (c / p - 1)
          | _, _ => PF.nan)) := by
  refine ⟨momAux_map_fst none m, fun kv h => ?_, fun i prev cur hp hc => ?_⟩
  · have := momAux_getElem_zero none m kv h
    rw [momDiv_none_prev] at this
    simpa only [calculate_mom_returns] using this
  · have h2 := momAux_getElem_succ m none i prev cur hp hc
    simp only [calculate_mom_returns]
    rw [h2]
    cases cur.2 <;> cases prev.2 <;> simp [momDiv]

/-- C2, counterexample: on the series `[1, 0, 2, NaN]` the third bucket — whose
previous value is zero and whose successor is absent — yields `+∞`, not
absence, contradicting the claim that a zero previous value or adjacency to an
absent value yields absence and that no infinite value is produced. -/
theorem mom_returns_zero_prev_counterexample :
    calculate_mom_returns serZeroPrev
      = [((2024, 1), PF.nan), ((2024, 2), PF.fin (-1)), ((2024, 3), PF.pinf),
         ((2024, 4), PF.nan)]
    ∧ (calculate_mom_returns serZeroPrev)[2]? ≠ some ((2024, 3), PF.nan) := by
  with_unfolding_all decide

theorem mom_returns_cells_witness :
    (serZeroPrev[1]? = some ((2024, 2), some 0)
      ∧ serZeroPrev[2]? = some ((2024, 3), some 2))
    ∧ (calculate_mom_returns serZeroPrev)[2]? = some ((2024, 3), PF.pinf) := by
  refine ⟨⟨by with_unfolding_all decide, by with_unfolding_all decide⟩, ?_⟩
  have h := (mom_returns_cells serZeroPrev).2.2 1 ((2024, 2), some 0) ((2024, 3), some 2)
    (by with_unfolding_all decide) (by with_unfolding_all decide)
  rw [h]
  with_unfolding_all decide

/-- C9, amended: feeding a monthly series all of whose values are the same
non-absent, nonzero value `v` into the return calculator yields absence at the
first bucket and exactly `0` at every later bucket. (For `v = 0` the division
`0 / 0` is NaN, so every bucket would be absence instead.) -/
theorem mom_returns_const (m : List (YM × Option ℚ)) (v : ℚ) (hv : v ≠ 0)
    (hall : ∀ kv ∈ m, kv.2 = some v) :
    (∀ kv, m[0]? = some kv → (calculate_mom_returns m)[0]? = some (kv.1, PF.nan))
    ∧ ∀ i kv, m[i + 1]? = some kv →
        (calculate_mom_returns m)[i + 1]? = some (kv.1, PF.fin 0) := by
  constructor
  · intro kv h
    have := momAux_getElem_zero none m kv h
    rwa [momDiv_none_prev] at this
  · intro i kv hc
    obtain ⟨hlt, heq⟩ := List.getElem?_eq_some.mp hc
    have hip : i < m.length := Nat.lt_of_succ_lt hlt
    have hp : m[i]? = some m[i] := List.getElem?_eq_some.mpr ⟨hip, rfl⟩
    have h := momAux_getElem_succ m none i m[i] kv hp hc
    have hprev : (m[i]).2 = some v := hall _ (List.getElem_mem hip)
    have hcur : kv.2 = some v := by rw [← heq]; exact hall _ (List.getElem_mem hlt)
    simp only [calculate_mom_returns]
    rw [h, hcur, hprev]
    simp only [momDiv, if_neg hv]
    rw [div_self hv]
    norm_num

/-- C9, counterexample: the all-identical series `[0, 0]` yields absence — not
`0` — at its second bucket, because `0 / 0` is NaN. -/
theorem mom_returns_zeros_counterexample :
    calculate_mom_returns serZeros = [((2024, 1), PF.nan), ((2024, 2), PF.nan)]
    ∧ (calculate_mom_returns serZeros)[1]? ≠ some ((2024, 2), PF.fin 0) := by
  with_unfolding_all decide

theorem mom_returns_const_witness :
    ((5 : ℚ) ≠ 0 ∧ ∀ kv ∈ serConst, kv.2 = some 5)
    ∧ (calculate_mom_returns serConst)[1]? = some ((2024, 2), PF.fin 0) := by
  refine ⟨⟨by norm_num, by with_unfolding_all decide⟩, ?_⟩
  exact (mom_returns_const serConst 5 (by norm_num)
    (by with_unfolding_all decide)).2 0 ((2024, 2), some 5) (by with_unfolding_all decide)

/-- C3, amended: for a valid index and a recognized horizon of `hm` months, the
forward-return matrix has one cell per bucket of the monthly series, and the
cell at bucket `i` holds `(monthly[i + hm] / monthly[i]) − 1` rounded to 4
decimal places when the future bucket exists, both values are non-absent and
the current value is nonzero — and absence otherwise; in particular every
bucket within `hm` of the end of the series holds absence. -/
theorem forward_returns_cells (t : Table) (name p : String) (hm : ℕ)
    (hn : name ∈ t.cols) (hp : period_map p = some hm) :
    ∃ L, calculate_forward_returns t name p = Except.ok L
      ∧ L.length = (calculate_monthly_average t name).length
      ∧ (∀ i kv, (calculate_monthly_average t name)[i]? = some kv →
          L[i]? = some (kv.1,
            match (calculate_monthly_average t name)[i + hm]? with
            | none => none
            | some fkv =>
              match kv.2, fkv.2 with
              | some c, some f => if c = 0 then none else some (pyRound 4 (f / c - 1))
              | _, _ => none))
      ∧ ∀ i kv, (calculate_monthly_average t name).length ≤ i + hm →
          (calculate_monthly_average t name)[i]? = some kv →
          L[i]? = some (kv.1, none) := by
  simp only [calculate_forward_returns, if_pos hn, hp]
  refine ⟨_, rfl, by simp, fun i kv hkv => ?_, fun i kv hlen hkv => ?_⟩
  · simp only [List.getElem?_map, List.getElem?_enum, hkv, Option.map_some']
    rfl
  · simp only [List.getElem?_map, List.getElem?_enum, hkv, Option.map_some']
    have hnone : (calculate_monthly_average t name)[i + hm]? = none :=
      List.getElem?_eq_none hlen
    simp [forwardCell, hnone]

theorem monthKeys_tabFwd : monthKeys tabFwd = [(2024, 1), (2024, 2)] := by decide

theorem monthly_average_tabFwd :
    calculate_monthly_average tabFwd "A" = [((2024, 1), some 3), ((2024, 2), some 4)] := by
  show (monthKeys tabFwd).map _ = _
  rw [monthKeys_tabFwd]
  simp [bucketVals, tabFwd, rowYM, bucketMean, List.filterMap]

/-- C3, counterexample: with monthly averages `3` then `4` and horizon `1M`,
the code returns the 4-decimal rounding `0.3333` of `(4 / 3) − 1 = 1/3`, which
differs from the exact value the claim asserts. -/
theorem forward_returns_rounding_counterexample :
    calculate_forward_returns tabFwd "A" "1M"
      = Except.ok [((2024, 1), some (pyRound 4 (4 / 3 - 1))), ((2024, 2), none)]
    ∧ pyRound 4 (4 / 3 - 1) ≠ 4 / 3 - 1 := by
  constructor
  · rw [calculate_forward_returns, if_pos (by decide : "A" ∈ tabFwd.cols)]
    simp only [period_map, if_pos, List.mem_cons]
    rw [monthly_average_tabFwd]
    simp [List.enum, List.enumFrom, forwardCell]
  · with_unfolding_all decide

theorem forward_returns_cells_witness :
    ("A" ∈ tabFwd.cols ∧ period_map "1M" = some 1)
    ∧ (∃ L, calculate_forward_returns tabFwd "A" "1M" = Except.ok L
        ∧ L.length = (calculate_monthly_average tabFwd "A").length
        ∧ (∀ i kv, (calculate_monthly_average tabFwd "A")[i]? = some kv →
            L[i]? = some (kv.1,
              match (calculate_monthly_average tabFwd "A")[i + 1]? with
              | none => none
              | some fkv =>
                match kv.2, fkv.2 with
                | some c, some f => if c = 0 then none else some (pyRound 4 (f / c - 1))
                | _, _ => none))
        ∧ ∀ i kv, (calculate_monthly_average tabFwd "A").length ≤ i + 1 →
            (calculate_monthly_average tabFwd "A")[i]? = some kv →
            L[i]? = some (kv.1, none)) :=
  ⟨⟨by decide, by decide⟩,
   forward_returns_cells tabFwd "A" "1M" 1 (by decide) (by decide)⟩

/-- C6: with a valid index, the forward-return operation fails with
`InvalidPeriodError` exactly for horizon tokens outside the recognized set
`{1M, 3M, 6M, 1Y, 2Y, 3Y, 4Y}` (which map to 1, 3, 6, 12, 24, 36, 48 months),
and yields a result — no such error — for every token inside the set. -/
theorem forward_period_validation (t : Table) (name p : String) (hn : name ∈ t.cols) :
    (validTokens.map period_map
      = [some 1, some 3, some 6, some 12, some 24, some 36, some 48])
    ∧ (p ∉ validTokens → calculate_forward_returns t name p = Except.error "InvalidPeriodError")
    ∧ (p ∈ validTokens → ∃ L, calculate_forward_returns t name p = Except.ok L) := by
  have hchar : p ∉ validTokens → period_map p = none := by
    intro h
    simp only [validTokens, List.mem_cons, List.not_mem_nil, or_false, not_or] at h
    obtain ⟨h1, h2, h3, h4, h5, h6, h7⟩ := h
    simp [period_map, h1, h2, h3, h4, h5, h6, h7]
  refine ⟨by simp [validTokens, period_map], fun h => ?_, fun h => ?_⟩
  · simp only [calculate_forward_returns, if_pos hn, hchar h]
  · have hsome : ∃ hm, period_map p = some hm := by
      simp only [validTokens, List.mem_cons, List.not_mem_nil, or_false] at h
      rcases h with rfl | rfl | rfl | rfl | rfl | rfl | rfl <;> simp [period_map]
    obtain ⟨hm, hpm⟩ := hsome
    simp only [calculate_forward_returns, if_pos hn, hpm]
    exact ⟨_, rfl⟩

theorem forward_period_validation_witness :
    ("A" ∈ tabTwo.cols)
    ∧ ((validTokens.map period_map
        = [some 1, some 3, some 6, some 12, some 24, some 36, some 48])
      ∧ ("5Y" ∉ validTokens →
          calculate_forward_returns tabTwo "A" "5Y" = Except.error "InvalidPeriodError")
      ∧ ("5Y" ∈ validTokens → ∃ L, calculate_forward_returns tabTwo "A" "5Y" = Except.ok L)) :=
  ⟨by decide, forward_period_validation tabTwo "A" "5Y" (by decide)⟩

theorem roundHalfEven_intCast (z : ℤ) : roundHalfEven (z : ℚ) = z := by
  unfold roundHalfEven
  rw [Int.floor_intCast, sub_self]
  norm_num

theorem pyRound_int_div (d : ℕ) (z : ℤ) :
    pyRound d ((z : ℚ) / 10 ^ d) = (z : ℚ) / 10 ^ d := by
  unfold pyRound
  rw [div_mul_cancel₀ _ (by positivity : ((10 : ℚ) ^ d) ≠ 0), roundHalfEven_intCast]

theorem pyRound_sub_fix (d : ℕ) (a : ℤ) (x : ℚ) :
    pyRound d ((a : ℚ) - pyRound d x) = (a : ℚ) - pyRound d x := by
  unfold pyRound
  have h10 : ((10 : ℚ) ^ d) ≠ 0 := by positivity
  rw [sub_mul, div_mul_cancel₀ _ h10]
  rw [show (a : ℚ) * 10 ^ d - (roundHalfEven (x * 10 ^ d) : ℚ)
      = ((a * 10 ^ d - roundHalfEven (x * 10 ^ d) : ℤ) : ℚ) by push_cast; ring]
  rw [roundHalfEven_intCast]
  push_cast
  field_simp

theorem rank_some_shape (t : Table) (name : String) (v : ℚ)
    (h : calculate_rank_percentile_4y t name = Except.ok (some v)) :
    ∃ target, cumReturn (colVals (window4y t) name) = some target
      ∧ allReturns4y t ≠ []
      ∧ v = pyRound 2 ((((allReturns4y t).filter (fun r => pfLt r target)).length : ℚ)
            / ((allReturns4y t).length : ℚ) * 100) := by
  rw [calculate_rank_percentile_4y] at h
  by_cases h1 : name ∈ t.cols
  · rw [if_pos h1] at h
    by_cases h2 : (window4y t).isEmpty
    · rw [if_pos h2] at h
      simp at h
    · rw [if_neg h2] at h
      cases hc : cumReturn (colVals (window4y t) name) with
      | none => rw [hc] at h; simp at h
      | some target =>
        rw [hc] at h
        simp only [] at h
        by_cases ha : allReturns4y t = []
        · rw [if_pos ha] at h; simp at h
        · rw [if_neg ha] at h
          refine ⟨target, rfl, ha, ?_⟩
          simpa using h.symm
  · rw [if_neg h1] at h
    exact Except.noConfusion h

theorem window_tabTwo : window4y tabTwo = tabTwo.rows := rfl

theorem cum_tabTwo_A :
    cumReturn (colVals (window4y tabTwo) "A") = some (PF.fin 2) := by
  rw [window_tabTwo]
  simp [cumReturn, colVals, tabTwo, pfDiv, PF.sub1]
  norm_num

theorem allRet_tabTwo : allReturns4y tabTwo = [PF.fin 2, PF.fin 1] := by
  unfold allReturns4y
  rw [window_tabTwo]
  simp [tabTwo, colVals, cumReturn, pfDiv, PF.sub1, List.filterMap]
  norm_num

theorem rank_tabTwo : calculate_rank_percentile_4y tabTwo "A" = Except.ok (some 50) := by
  rw [calculate_rank_percentile_4y, if_pos (by decide : "A" ∈ tabTwo.cols)]
  rw [if_neg (by rw [window_tabTwo]; decide : ¬ (window4y tabTwo).isEmpty = true)]
  rw [cum_tabTwo_A]
  simp only [allRet_tabTwo]
  have : [PF.fin 2, PF.fin 1] ≠ [] := by decide
  rw [if_neg this]
  have hcount : (List.filter (fun r => pfLt r (PF.fin 2)) [PF.fin 2, PF.fin 1]) = [PF.fin 1] := by
    simp [pfLt]
  rw [hcount]
  have : ((1 : ℕ) : ℚ) / ((2 : ℕ) : ℚ) * 100 = ((5000 : ℤ) : ℚ) / 10 ^ 2 := by norm_num
  simp only [List.length_cons, List.length_nil, List.length_singleton]
  rw [this, pyRound_int_div]
  norm_num

/-- C1, counterexample: in a table with exactly two indices where `A`'s 4-year
cumulative return (2.0) strictly exceeds `B`'s (1.0), the claim's formula —
one other index below the target out of one comparable other index — predicts
a percentile of 100 for `A`, but the code divides by the total number of
comparable indices including the target itself and returns 50. -/
theorem rank_percentile_counterexample :
    calculate_rank_percentile_4y tabTwo "A" = Except.ok (some 50)
    ∧ calculate_rank_percentile_4y tabTwo "A" ≠ Except.ok (some 100) := by
  have hne : (50 : ℚ) ≠ 100 := by norm_num
  refine ⟨rank_tabTwo, fun h => hne ?_⟩
  rw [rank_tabTwo] at h
  exact Option.some.inj (Except.ok.inj h)

/-- C5: every exposed operation — the month-over-month heatmap, the
forward-return heatmap (for any horizon token), the monthly price matrix, the
trailing 3-year average, the rank percentile, the inverse rank percentile and
the monthly rank position — fails with `UnknownIndexError` and produces no
result when given an index name that is not a column of the table. -/
theorem unknown_index_rejection (t : Table) (name : String) (h : name ∉ t.cols) :
    generate_heatmap_matrix t name = Except.error "UnknownIndexError"
    ∧ generate_monthly_price_matrix t name = Except.error "UnknownIndexError"
    ∧ calculate_avg_monthly_profits_3y t name = Except.error "UnknownIndexError"
    ∧ calculate_rank_percentile_4y t name = Except.error "UnknownIndexError"
    ∧ calculate_inverse_rank_percentile t name = Except.error "UnknownIndexError"
    ∧ calculate_monthly_rank_position t name = Except.error "UnknownIndexError"
    ∧ ∀ p, calculate_forward_returns t name p = Except.error "UnknownIndexError" := by
  have hrank : calculate_rank_percentile_4y t name = Except.error "UnknownIndexError" := by
    rw [calculate_rank_percentile_4y, if_neg h]
  refine ⟨?_, ?_, ?_, hrank, ?_, ?_, fun p => ?_⟩
  · rw [generate_heatmap_matrix, if_neg h]
  · rw [generate_monthly_price_matrix, if_neg h]
  · rw [calculate_avg_monthly_profits_3y, if_neg h]
  · rw [calculate_inverse_rank_percentile, hrank]
  · rw [calculate_monthly_rank_position, if_neg h]
  · rw [calculate_forward_returns, if_neg h]

theorem unknown_index_rejection_witness :
    ("Z" ∉ tabTwo.cols)
    ∧ (generate_heatmap_matrix tabTwo "Z" = Except.error "UnknownIndexError"
      ∧ generate_monthly_price_matrix tabTwo "Z" = Except.error "UnknownIndexError"
      ∧ calculate_avg_monthly_profits_3y tabTwo "Z" = Except.error "UnknownIndexError"
      ∧ calculate_rank_percentile_4y tabTwo "Z" = Except.error "UnknownIndexError"
      ∧ calculate_inverse_rank_percentile tabTwo "Z" = Except.error "UnknownIndexError"
      ∧ calculate_monthly_rank_position tabTwo "Z" = Except.error "UnknownIndexError"
      ∧ ∀ p, calculate_forward_returns tabTwo "Z" p = Except.error "UnknownIndexError") :=
  ⟨by decide, unknown_index_rejection tabTwo "Z" (by decide)⟩

/-- C4: whenever the 4-year rank percentile of an index is a non-absent value
`v`, the inverse rank percentile is exactly `100 − v`; and whenever the rank
percentile is absence, the inverse rank percentile is absence as well. -/
theorem inverse_rank_relation (t : Table) (name : String) :
    (∀ v, calculate_rank_percentile_4y t name = Except.ok (some v) →
      calculate_inverse_rank_percentile t name = Except.ok (some (100 - v)))
    ∧ (calculate_rank_percentile_4y t name = Except.ok none →
      calculate_inverse_rank_percentile t name = Except.ok none) := by
  constructor
  · intro v h
    obtain ⟨target, -, -, hv⟩ := rank_some_shape t name v h
    have hfix : pyRound 2 (100 - v) = 100 - v := by
      rw [hv, show (100 : ℚ) = ((100 : ℤ) : ℚ) by norm_cast, pyRound_sub_fix]
    rw [calculate_inverse_rank_percentile, h]
    show Except.ok (some (pyRound 2 (100 - v))) = Except.ok (some (100 - v))
    rw [hfix]
  · intro h
    rw [calculate_inverse_rank_percentile, h]

theorem inverse_rank_relation_witness :
    calculate_rank_percentile_4y tabTwo "A" = Except.ok (some 50)
    ∧ calculate_inverse_rank_percentile tabTwo "A" = Except.ok (some (100 - 50)) :=
  ⟨rank_tabTwo, (inverse_rank_relation tabTwo "A").1 50 rank_tabTwo⟩

theorem pfLt_irrefl (v : PF) : pfLt v v = false := by
  cases v <;> simp [pfLt]

/-- C1, amended: for every index whose 4-year cumulative return is computable
(nonempty window, at least two non-absent observations), the rank percentile
equals (count of OTHER comparable indices whose cumulative return is strictly
less than the target's) divided by (total comparable indices INCLUDING the
target) times 100, rounded to 2 decimals. The numerator may exclude the target
because its return is never strictly less than itself; the denominator counts
it, and since the target is always comparable to itself the comparison set is
never empty, so the result is non-absent whenever the target's return is
computable. -/
theorem rank_percentile_formula (t : Table) (name : String) (hn : name ∈ t.cols)
    (hnd : t.cols.Nodup) (hD : name ≠ "DATE") (target : PF)
    (ht : cumReturn (colVals (window4y t) name) = some target)
    (hw : (window4y t).isEmpty = false) :
    calculate_rank_percentile_4y t name = Except.ok (some (pyRound 2
      ((((otherReturns4y t name).filter (fun r => pfLt r target)).length : ℚ)
        / ((allReturns4y t).length : ℚ) * 100))) := by
  have hfn : (if name = "DATE" then none
      else cumReturn (colVals (window4y t) name)) = some target := by
    rw [if_neg hD, ht]
  have htarget_mem : target ∈ allReturns4y t :=
    List.mem_filterMap.mpr ⟨name, hn, hfn⟩
  have hane : allReturns4y t ≠ [] := List.ne_nil_of_mem htarget_mem
  have hperm : t.cols.Perm (name :: t.cols.erase name) := List.perm_cons_erase hn
  have herase : t.cols.erase name = t.cols.filter (fun c => c != name) :=
    hnd.erase_eq_filter name
  have hcount : ((allReturns4y t).filter (fun r => pfLt r target)).length
      = ((otherReturns4y t name).filter (fun r => pfLt r target)).length := by
    have h2 : List.filterMap (fun col =>
        if col = "DATE" then none else cumReturn (colVals (window4y t) col))
          (name :: t.cols.erase name)
        = target :: List.filterMap (fun col =>
            if col = "DATE" then none else cumReturn (colVals (window4y t) col))
          (t.cols.erase name) := by
      rw [List.filterMap_cons, hfn]
    have h1 := ((hperm.filterMap (fun col =>
      if col = "DATE" then none else cumReturn (colVals (window4y t) col))).filter
      (fun r => pfLt r target)).length_eq
    rw [h2, List.filter_cons, pfLt_irrefl] at h1
    simp only [Bool.false_eq_true, if_false] at h1
    unfold allReturns4y otherReturns4y
    rw [← herase]
    exact h1
  rw [calculate_rank_percentile_4y, if_pos hn, if_neg (by rw [hw]; exact Bool.false_ne_true),
    ht]
  show Except.ok (if allReturns4y t = [] then none
    else some (pyRound 2 ((((allReturns4y t).filter (fun r => pfLt r target)).length : ℚ)
      / ((allReturns4y t).length : ℚ) * 100))) = _
  rw [if_neg hane, hcount]

theorem rank_percentile_formula_witness :
    ("A" ∈ tabTwo.cols ∧ tabTwo.cols.Nodup ∧ "A" ≠ "DATE"
      ∧ cumReturn (colVals (window4y tabTwo) "A") = some (PF.fin 2)
      ∧ (window4y tabTwo).isEmpty = false)
    ∧ calculate_rank_percentile_4y tabTwo "A" = Except.ok (some (pyRound 2
        ((((otherReturns4y tabTwo "A").filter (fun r => pfLt r (PF.fin 2))).length : ℚ)
          / ((allReturns4y tabTwo).length : ℚ) * 100))) :=
  ⟨⟨by decide, by decide, by decide, cum_tabTwo_A, rfl⟩,
   rank_percentile_formula tabTwo "A" (by decide) (by decide) (by decide)
     (PF.fin 2) cum_tabTwo_A rfl⟩

theorem ymLe_ne_lt {a b : YM} (hle : ymLe a b) (hne : a ≠ b) : ymLt a b := by
  rcases hle with h | ⟨he, hm⟩
  · exact Or.inl h
  · refine Or.inr ⟨he, lt_of_le_of_ne hm fun hm2 => hne (Prod.ext he hm2)⟩

/-- C7: for every valid index, the monthly aggregator produces buckets whose
keys are strictly increasing in the lexicographic (year, month) order, whose
key set is exactly the set of (year, month) pairs present in the table's rows
(hence exactly one bucket per month present, since the keys are strictly
ordered and so pairwise distinct), and each bucket's value is the arithmetic
mean of the non-absent daily values in that bucket — absence exactly when
every daily value in the bucket is absent. -/
theorem monthly_aggregator_spec (t : Table) (name : String) (_hn : name ∈ t.cols) :
    ((calculate_monthly_average t name).map Prod.fst).Pairwise ymLt
    ∧ (∀ k, k ∈ (calculate_monthly_average t name).map Prod.fst ↔ k ∈ t.rows.map rowYM)
    ∧ ∀ kv ∈ calculate_monthly_average t name,
        (kv.2 = none ↔ bucketVals t name kv.1 = [])
        ∧ (bucketVals t name kv.1 ≠ [] →
            kv.2 = some ((bucketVals t name kv.1).sum / (bucketVals t name kv.1).length)) := by
  have hkeys : (calculate_monthly_average t name).map Prod.fst = monthKeys t := by
    have hid : (Prod.fst ∘ fun k : YM => (k, bucketMean (bucketVals t name k))) = id := rfl
    rw [calculate_monthly_average, List.map_map, hid, List.map_id]
  refine ⟨?_, ?_, ?_⟩
  · rw [hkeys]
    have hsorted : List.Sorted ymLe (monthKeys t) := List.sorted_insertionSort ymLe _
    have hnodup : (monthKeys t).Nodup :=
      ((List.perm_insertionSort ymLe _).nodup_iff).mpr (List.nodup_dedup _)
    exact (List.Pairwise.and hsorted hnodup).imp fun h => ymLe_ne_lt h.1 h.2
  · intro k
    rw [hkeys]
    simp [monthKeys, List.mem_dedup]
  · intro kv hkv
    rw [calculate_monthly_average] at hkv
    obtain ⟨k, hk, rfl⟩ := List.mem_map.mp hkv
    refine ⟨?_, fun hne => ?_⟩
    · simp only [bucketMean]
      split_ifs with h
      · simp [h]
      · simp [h]
    · simp only [bucketMean, if_neg hne]

theorem monthly_aggregator_spec_witness :
    ("A" ∈ tabTwo.cols)
    ∧ (((calculate_monthly_average tabTwo "A").map Prod.fst).Pairwise ymLt
      ∧ (∀ k, k ∈ (calculate_monthly_average tabTwo "A").map Prod.fst
          ↔ k ∈ tabTwo.rows.map rowYM)
      ∧ ∀ kv ∈ calculate_monthly_average tabTwo "A",
          (kv.2 = none ↔ bucketVals tabTwo "A" kv.1 = [])
          ∧ (bucketVals tabTwo "A" kv.1 ≠ [] →
              kv.2 = some ((bucketVals tabTwo "A" kv.1).sum
                / (bucketVals tabTwo "A" kv.1).length))) :=
  ⟨by decide, monthly_aggregator_spec tabTwo "A" (by decide)⟩

/-- C8: for a valid index the monthly rank-position matrix has one cell per
bucket of the target's month-over-month series; a cell is absence exactly when
the target's return is NaN or no other index has a comparable (non-absent)
return that bucket, and otherwise holds `1 + (number of other indices with a
strictly greater return that bucket)`; consequently every non-absent rank lies
between 1 and (number of comparable peers that bucket) + 1, and indices tied
for the highest return share rank 1. -/
theorem monthly_rank_position_spec (t : Table) (name : String) (hn : name ∈ t.cols) :
    ∃ L, calculate_monthly_rank_position t name = Except.ok L
      ∧ L.length = (calculate_mom_returns (calculate_monthly_average t name)).length
      ∧ (∀ (i : ℕ) (kv : YM × PF),
          (calculate_mom_returns (calculate_monthly_average t name))[i]? = some kv →
          L[i]? = some (kv.1,
            if kv.2.isNan then none
            else if sameMonthPeers t name kv.1 = [] then none
            else some ((((sameMonthPeers t name kv.1).filter
                (fun r => pfLt kv.2 r)).length : ℤ) + 1)))
      ∧ ∀ (i : ℕ) (k : YM) (r : ℤ), L[i]? = some (k, some r) →
          1 ≤ r ∧ r ≤ (sameMonthPeers t name k).length + 1 := by
  rw [calculate_monthly_rank_position, if_pos hn]
  refine ⟨_, rfl, ?_, ?_, ?_⟩
  · simp
  · intro i kv hkv
    simp only [List.getElem?_map, hkv, Option.map_some', Option.some.injEq]
    by_cases h1 : kv.2.isNan
    · simp [h1]
    · by_cases h2 : sameMonthPeers t name kv.1 = []
      · simp [h1, h2]
      · simp [h1, h2]
  · intro i k r hir
    simp only [List.getElem?_map] at hir
    obtain ⟨kv, hbase, hcell⟩ := Option.map_eq_some'.mp hir
    by_cases h1 : kv.2.isNan
    · rw [if_pos h1] at hcell
      simp at hcell
    · rw [if_neg h1] at hcell
      by_cases h2 : sameMonthPeers t name kv.1 = []
      · rw [if_pos h2] at hcell
        simp at hcell
      · rw [if_neg h2] at hcell
        obtain ⟨hk, hr⟩ := Prod.mk.injEq .. ▸ hcell
        have hk' : kv.1 = k := by
          have := congrArg Prod.fst hcell
          simpa using this
        have hr' : some (((sameMonthPeers t name kv.1).filter
            (fun r => pfLt kv.2 r)).length + 1 : ℤ) = some r := by
          have := congrArg Prod.snd hcell
          simpa using this
        have hrr := Option.some.inj hr'
        have hfilter := List.length_filter_le (fun r => pfLt kv.2 r) (sameMonthPeers t name kv.1)
        rw [← hk', ← hrr]
        constructor
        · omega
        · omega

theorem monthly_rank_position_spec_witness :
    ("A" ∈ tabTwo.cols)
    ∧ (∃ L, calculate_monthly_rank_position tabTwo "A" = Except.ok L
      ∧ L.length = (calculate_mom_returns (calculate_monthly_average tabTwo "A")).length
      ∧ (∀ (i : ℕ) (kv : YM × PF),
          (calculate_mom_returns (calculate_monthly_average tabTwo "A"))[i]? = some kv →
          L[i]? = some (kv.1,
            if kv.2.isNan then none
            else if sameMonthPeers tabTwo "A" kv.1 = [] then none
            else some ((((sameMonthPeers tabTwo "A" kv.1).filter
                (fun r => pfLt kv.2 r)).length : ℤ) + 1)))
      ∧ ∀ (i : ℕ) (k : YM) (r : ℤ), L[i]? = some (k, some r) →
          1 ≤ r ∧ r ≤ (sameMonthPeers tabTwo "A" k).length + 1) :=
  ⟨by decide, monthly_rank_position_spec tabTwo "A" (by decide)⟩

theorem floor_le_roundHalfEven (x : ℚ) : ⌊x⌋ ≤ roundHalfEven x := by
  unfold roundHalfEven
  split_ifs <;> omega

theorem roundHalfEven_le_ceil (x : ℚ) : roundHalfEven x ≤ ⌈x⌉ := by
  have hfc : ⌊x⌋ ≤ ⌈x⌉ := Int.floor_le_ceil x
  unfold roundHalfEven
  split_ifs with h1 h2 h3
  · exact hfc
  · have hlt : (⌊x⌋ : ℚ) < x := by linarith
    have := Int.lt_ceil.mpr hlt
    omega
  · exact hfc
  · have heq : x - ⌊x⌋ = 1/2 := le_antisymm (not_lt.mp h2) (not_lt.mp h1)
    have hlt : (⌊x⌋ : ℚ) < x := by linarith
    have := Int.lt_ceil.mpr hlt
    omega

theorem pyRound_nonneg (d : ℕ) (x : ℚ) (hx : 0 ≤ x) : 0 ≤ pyRound d x := by
  unfold pyRound
  apply div_nonneg _ (by positivity)
  have h1 : (0 : ℤ) ≤ ⌊x * 10 ^ d⌋ := Int.floor_nonneg.mpr (by positivity)
  have h2 := floor_le_roundHalfEven (x * 10 ^ d)
  exact_mod_cast le_trans h1 h2

theorem pyRound_le_of_le (d : ℕ) (x : ℚ) (z : ℤ) (hx : x ≤ z) :
    pyRound d x ≤ (z : ℚ) := by
  unfold pyRound
  rw [div_le_iff₀ (by positivity : (0 : ℚ) < 10 ^ d)]
  have h1 := roundHalfEven_le_ceil (x * 10 ^ d)
  have h2 : ⌈x * 10 ^ d⌉ ≤ z * 10 ^ d := by
    apply Int.ceil_le.mpr
    push_cast
    exact mul_le_mul_of_nonneg_right hx (by positivity)
  calc (roundHalfEven (x * 10 ^ d) : ℚ) ≤ ((z * 10 ^ d : ℤ) : ℚ) := by
        exact_mod_cast le_trans h1 h2
    _ = (z : ℚ) * 10 ^ d := by push_cast; ring

/-- C10, amended: every non-absent value returned by
`calculate_rank_percentile_4y` lies in the closed interval `[0, 100]`;
moreover, for any index other than the `DATE` column, the percentile before
rounding is strictly below 100, because the comparison loop includes the
target index in the denominator while the target's return is never strictly
less than itself. The returned (rounded) value can nevertheless equal exactly
100, because the final 2-decimal rounding can lift a percentile just below
100 up to 100 — so the half-open bound `[0, 100)` does not hold. -/
theorem rank_percentile_bounds (t : Table) (name : String) (v : ℚ)
    (h : calculate_rank_percentile_4y t name = Except.ok (some v)) :
    (0 ≤ v ∧ v ≤ 100)
    ∧ (name ≠ "DATE" → ∃ target,
        cumReturn (colVals (window4y t) name) = some target
        ∧ v = pyRound 2 ((((allReturns4y t).filter (fun r => pfLt r target)).length : ℚ)
            / ((allReturns4y t).length : ℚ) * 100)
        ∧ (((allReturns4y t).filter (fun r => pfLt r target)).length : ℚ)
            / ((allReturns4y t).length : ℚ) * 100 < 100) := by
  obtain ⟨target, ht, hne, hv⟩ := rank_some_shape t name v h
  have hcn : ((allReturns4y t).filter (fun r => pfLt r target)).length
      ≤ (allReturns4y t).length := List.length_filter_le _ _
  have hn1 : 0 < (allReturns4y t).length := List.length_pos.mpr hne
  have hnq : (0 : ℚ) < ((allReturns4y t).length : ℚ) := by exact_mod_cast hn1
  have hx0 : 0 ≤ (((allReturns4y t).filter (fun r => pfLt r target)).length : ℚ)
      / ((allReturns4y t).length : ℚ) * 100 := by positivity
  have hx1 : (((allReturns4y t).filter (fun r => pfLt r target)).length : ℚ)
      / ((allReturns4y t).length : ℚ) * 100 ≤ ((100 : ℤ) : ℚ) := by
    have hle : (((allReturns4y t).filter (fun r => pfLt r target)).length : ℚ)
        ≤ ((allReturns4y t).length : ℚ) := by exact_mod_cast hcn
    rw [div_mul_eq_mul_div, div_le_iff₀ hnq]
    push_cast
    nlinarith
  refine ⟨⟨?_, ?_⟩, fun hD => ?_⟩
  · rw [hv]
    exact pyRound_nonneg _ _ hx0
  · rw [hv]
    have := pyRound_le_of_le 2 _ 100 hx1
    simpa using this
  · have hmem : name ∈ t.cols := by
      by_contra hnot
      rw [calculate_rank_percentile_4y, if_neg hnot] at h
      exact Except.noConfusion h
    have htmem : target ∈ allReturns4y t :=
      List.mem_filterMap.mpr ⟨name, hmem, by rw [if_neg hD, ht]⟩
    have hlt : ((allReturns4y t).filter (fun r => pfLt r target)).length
        < (allReturns4y t).length :=
      List.length_filter_lt_length_iff_exists.mpr
        ⟨target, htmem, by rw [pfLt_irrefl]; simp⟩
    refine ⟨target, ht, hv, ?_⟩
    have hltq : (((allReturns4y t).filter (fun r => pfLt r target)).length : ℚ)
        < ((allReturns4y t).length : ℚ) := by exact_mod_cast hlt
    rw [div_mul_eq_mul_div, div_lt_iff₀ hnq]
    nlinarith

theorem rank_percentile_bounds_witness :
    calculate_rank_percentile_4y tabTwo "A" = Except.ok (some 50)
    ∧ (((0 : ℚ) ≤ 50 ∧ (50 : ℚ) ≤ 100)
      ∧ ("A" ≠ "DATE" → ∃ target,
          cumReturn (colVals (window4y tabTwo) "A") = some target
          ∧ (50 : ℚ) = pyRound 2
              ((((allReturns4y tabTwo).filter (fun r => pfLt r target)).length : ℚ)
                / ((allReturns4y tabTwo).length : ℚ) * 100)
          ∧ (((allReturns4y tabTwo).filter (fun r => pfLt r target)).length : ℚ)
              / ((allReturns4y tabTwo).length : ℚ) * 100 < 100)) :=
  ⟨rank_tabTwo, rank_percentile_bounds tabTwo "A" 50 rank_tabTwo⟩

theorem peerName_ne_DATE (i : ℕ) : peerName i ≠ "DATE" := by
  intro h
  have hd := congrArg String.data h
  rw [peerName, String.data_append] at hd
  simp at hd

theorem peerName_ne_A (i : ℕ) : peerName i ≠ "A" := by
  intro h
  have hd := congrArg String.data h
  rw [peerName, String.data_append] at hd
  simp at hd

theorem window_tabBig : window4y tabBig = tabBig.rows := rfl

theorem cum_tabBig_A :
    cumReturn (colVals (window4y tabBig) "A") = some (PF.fin 2) := by
  rw [window_tabBig]
  simp [cumReturn, colVals, tabBig, pfDiv, PF.sub1]
  norm_num

theorem bigF_peer (s : String) (h1 : s ≠ "DATE") (h2 : s ≠ "A") :
    (if s = "DATE" then none else cumReturn (colVals (window4y tabBig) s))
      = some (PF.fin 1) := by
  rw [if_neg h1, window_tabBig]
  simp [colVals, tabBig, cumReturn, pfDiv, PF.sub1, h2]
  norm_num

theorem filterMap_const_replicate {α β : Type} (f : α → Option β) (c : β) :
    ∀ l : List α, (∀ a ∈ l, f a = some c) → l.filterMap f = List.replicate l.length c := by
  intro l
  induction l with
  | nil => intro _; rfl
  | cons x xs ih =>
    intro h
    rw [List.filterMap_cons, h x (List.mem_cons_self x xs), List.length_cons,
      List.replicate_succ, ih (fun a ha => h a (List.mem_cons_of_mem x ha))]


theorem allRet_tabBig :
    allReturns4y tabBig = PF.fin 2 :: List.replicate 20000 (PF.fin 1) := by
  have hD : (if ("DATE" : String) = "DATE" then none
      else cumReturn (colVals (window4y tabBig) "DATE")) = none := by
    rw [if_pos rfl]
  have hA : (if ("A" : String) = "DATE" then none
      else cumReturn (colVals (window4y tabBig) "A")) = some (PF.fin 2) := by
    rw [if_neg (by decide), cum_tabBig_A]
  show List.filterMap _ ("DATE" :: "A" :: (List.range 20000).map peerName) = _
  rw [@List.filterMap_cons_none _ _
      (fun col => if col = "DATE" then none else cumReturn (colVals (window4y tabBig) col))
      "DATE" ("A" :: (List.range 20000).map peerName) hD,
    @List.filterMap_cons_some _ _
      (fun col => if col = "DATE" then none else cumReturn (colVals (window4y tabBig) col))
      "A" ((List.range 20000).map peerName) (PF.fin 2) hA,
    List.filterMap_map]
  have hrep := filterMap_const_replicate
    ((fun col => if col = "DATE" then none else cumReturn (colVals (window4y tabBig) col))
      ∘ peerName)
    (PF.fin 1) (List.range 20000)
    (fun i _ => bigF_peer (peerName i) (peerName_ne_DATE i) (peerName_ne_A i))
  rw [List.length_range] at hrep
  rw [hrep]

theorem count_tabBig :
    List.filter (fun r => pfLt r (PF.fin 2)) (PF.fin 2 :: List.replicate 20000 (PF.fin 1))
      = List.replicate 20000 (PF.fin 1) := by
  rw [List.filter_cons, pfLt_irrefl]
  simp only [Bool.false_eq_true, if_false]
  rw [List.filter_replicate]
  rw [if_pos (by simp [pfLt])]


/-- C10, counterexample: in a table where index `A` has cumulative 4-year
return 2.0 and 20000 peer indices each have cumulative return 1.0, the
unrounded percentile is `100 * 20000 / 20001 ≈ 99.995000`, and the final
2-decimal rounding returns exactly `100` — so a non-absent result CAN equal
100, refuting the half-open interval `[0, 100)`. -/
theorem rank_percentile_hundred_counterexample :
    calculate_rank_percentile_4y tabBig "A" = Except.ok (some 100) := by
  have hmem : "A" ∈ tabBig.cols := by
    show "A" ∈ "DATE" :: "A" :: _
    exact List.mem_cons_of_mem _ (List.mem_cons_self _ _)
  have hwin : (window4y tabBig).isEmpty = false := rfl
  rw [calculate_rank_percentile_4y, if_pos hmem,
    if_neg (by rw [hwin]; exact Bool.false_ne_true), cum_tabBig_A]
  show Except.ok (if allReturns4y tabBig = [] then none
    else some (pyRound 2
      ((((allReturns4y tabBig).filter (fun r => pfLt r (PF.fin 2))).length : ℚ)
        / ((allReturns4y tabBig).length : ℚ) * 100))) = _
  rw [allRet_tabBig]
  rw [if_neg (List.cons_ne_nil (PF.fin 2) (List.replicate 20000 (PF.fin 1)))]
  rw [count_tabBig, List.length_replicate, List.length_cons, List.length_replicate]
  have harg : ((20000 : ℕ) : ℚ) / (((20000 : ℕ) + 1 : ℕ) : ℚ) * 100
      = 2000000 / 20001 := by
    push_cast
    norm_num
  rw [harg]
  have hfl : ⌊(2000000 / 20001 : ℚ) * 10 ^ 2⌋ = 9999 := by
    rw [Int.floor_eq_iff]
    constructor
    · norm_num
    · norm_num
  rw [pyRound, roundHalfEven, hfl]
  rw [if_neg (by norm_num : ¬((2000000 / 20001 : ℚ) * 10 ^ 2 - ((9999 : ℤ) : ℚ) < 1/2))]
  rw [if_pos (by norm_num : (1:ℚ)/2 < (2000000 / 20001 : ℚ) * 10 ^ 2 - ((9999 : ℤ) : ℚ))]
  norm_num

end Heatmap
